import Mathlib

/-!
# Verification of the Aeronix netlist ingestion core

Shallow embedding of `backend/netlist_parser.py` (graph-format parser
`parse_d356`, flat-format parser `parse_ipc`, the dispatcher
`parse_netlist`, and the chunk flattener `flatten_netlist`), together
with theorems settling the specification claims about them.

Strings are modelled as Lean `String` (a wrapper around `List Char`);
the Python regexes, which are applied to ASCII input, are modelled by
explicit character-list scanners whose deterministic behaviour
coincides with the backtracking regex semantics on the inputs the
parser feeds them (each regex in the source is anchored in a way that
makes greedy/lazy matching deterministic: a maximal digit run must be
followed by a fixed non-digit anchor letter, and maximal whitespace
runs must be followed by a fixed non-whitespace element).
-/

namespace Aeronix

/-- ASCII whitespace, as matched by Python `str.strip` / regex `\s`
on ASCII text: space, tab, newline, carriage return, vertical tab,
form feed. -/
def isWS (c : Char) : Bool :=
  c = ' ' || c = '\t' || c = '\n' || c = '\r' || c = '\x0b' || c = '\x0c'

/-- Python `str.strip()`: drop leading and trailing whitespace. -/
def pyStrip (cs : List Char) : List Char :=
  ((cs.dropWhile isWS).reverse.dropWhile isWS).reverse

/-- Maximal leading digit run (regex `\d*` on ASCII text). -/
def takeDigits (cs : List Char) : List Char :=
  cs.takeWhile Char.isDigit

/-- Numeric value of a digit string, as Python `int` on a digit run. -/
def natOfDigits (cs : List Char) : Nat :=
  cs.foldl (fun n c => n * 10 + (c.toNat - '0'.toNat)) 0

/-- Python `str.endswith(suffix)`. -/
def pyEndsWith (s suffix : String) : Bool :=
  s.data.drop (s.data.length - suffix.data.length) == suffix.data

/-! ## Data model built by `parse_d356` -/

/-- The `pin_info` dictionary appended to a component's pin list
(netlist_parser.py lines 72-82).  Geometry fields are `Option`s:
Python stores `None` when the geometry regex does not match. -/
structure Pin where
  net_id : String
  net_name : String
  component : String
  geom : String
  x : Option Int
  y : Option Int
  rotation : Option Nat
  symbol_id : Option String
  deriving Repr, DecidableEq

/-- A net entry: `nets[net_id]["name"]` is overwritten on every line of
the net (last write wins) and `connections` accumulates component ids
in file order (netlist_parser.py lines 85-86). -/
structure NetData where
  name : String
  connections : List String
  deriving Repr, DecidableEq

/-- The dictionary returned by `parse_d356` (lines 89-93).  Python
dicts are insertion-ordered, so each map is an association list in
insertion order with unique keys. -/
structure GraphNetlist where
  metadata : List (String × String)
  components : List (String × List Pin)
  nets : List (String × NetData)
  deriving Repr, DecidableEq

/-- One record appended by `parse_ipc` (lines 112-120).  `pin` and
`side` are stored as the raw matched strings, `x`/`y`/`rotation` as
ints. -/
structure FlatEntry where
  net : String
  component : String
  pin : String
  x : Nat
  y : Nat
  rotation : Nat
  side : String
  deriving Repr, DecidableEq

/-- The two shapes `flatten_netlist` distinguishes: the d356 dict
(which always carries the `components` and `nets` keys) and the ipc
list. -/
inductive Netlist where
  | graph : GraphNetlist → Netlist
  | flat : List FlatEntry → Netlist
  deriving Repr, DecidableEq

/-! ## Graph-format (`.d356`) line grammar -/

/-- The guard `line.startswith("P ")` (line 46): a literal `P` followed
by a literal space. -/
def startsWithPSpace : List Char → Bool
  | 'P' :: ' ' :: _ => true
  | _ => false

/-- `prop_pattern = ^P\s+(\S+)\s+(.+)$` applied with `re.match` to the
whitespace-stripped line (lines 27, 47-50): after `P` and at least one
whitespace character, the key is the maximal non-whitespace run, then
at least one whitespace character, then the value is the rest of the
line.  On stripped lines (no trailing whitespace) this scanner agrees
with the backtracking regex. -/
def prop_match (cs : List Char) : Option (List Char × List Char) :=
  match cs with
  | 'P' :: c :: rest =>
    if isWS c then
      let afterWS := rest.dropWhile isWS
      let key := afterWS.takeWhile (fun x => !(isWS x))
      let value := (afterWS.dropWhile (fun x => !(isWS x))).dropWhile isWS
      if key = [] || value = [] then none else some (key, value)
    else none
  | _ => none

/-- The four captured groups of `netline_pattern`. -/
structure NetLine where
  netid : List Char
  netname : List Char
  comp : List Char
  geom : List Char
  deriving Repr, DecidableEq

/-- `netline_pattern = ^(?P<netid>\d+)(?P<netname>\S*)\s+(?P<comp>\S+)\s+(?P<geom>.+)$`
applied with `re.match` to the stripped line (lines 30, 54-59): a
maximal leading digit run (non-empty), the rest of that first token as
the net name, whitespace, the component token, whitespace, and the
remainder of the line as the geometry substring.  On stripped lines
this agrees with the backtracking regex. -/
def netline_match (cs : List Char) : Option NetLine :=
  let netid := takeDigits cs
  if netid = [] then none else
  let r1 := cs.drop netid.length
  let netname := r1.takeWhile (fun c => !(isWS c))
  let r2 := r1.drop netname.length
  if r2 = [] then none else
  let r3 := r2.dropWhile isWS
  let comp := r3.takeWhile (fun c => !(isWS c))
  if comp = [] then none else
  let r4 := r3.drop comp.length
  if r4 = [] then none else
  let geom := r4.dropWhile isWS
  if geom = [] then none else
  some ⟨netid, netname, comp, geom⟩

/-- An optionally signed integer, regex `[+-]?\d+`: optional sign, then
a non-empty maximal digit run.  Returns the value and the rest. -/
def signedInt (cs : List Char) : Option (Int × List Char) :=
  match cs with
  | [] => none
  | c :: r =>
    if c = '+' then
      let d := takeDigits r
      if d = [] then none else some ((natOfDigits d : Int), r.drop d.length)
    else if c = '-' then
      let d := takeDigits r
      if d = [] then none else some (-(natOfDigits d : Int), r.drop d.length)
    else
      let d := takeDigits cs
      if d = [] then none else some ((natOfDigits d : Int), cs.drop d.length)

/-- The `.*?S(?P<sid>\d+)` tail of `geom_pattern`: lazily scan for the
first `S` that is followed by at least one digit; the symbol id is the
maximal digit run after it. -/
def findS : List Char → Option (List Char)
  | [] => none
  | c :: r =>
    if c = 'S' then
      let d := takeDigits r
      if d = [] then findS r else some d
    else findS r

/-- The `.*?R(?P<rot>\d+).*?S(?P<sid>\d+)` tail of `geom_pattern`:
lazily scan for the first `R` followed by a digit run after which an
`S`-group can still be found; on failure of the `S` part the lazy scan
resumes past that `R` (regex backtracking). -/
def findRS : List Char → Option (Nat × List Char)
  | [] => none
  | c :: r =>
    if c = 'R' then
      let d := takeDigits r
      if d = [] then findRS r
      else
        match findS (r.drop d.length) with
        | some sid => some (natOfDigits d, sid)
        | none => findRS r
    else findRS r

/-- One anchored attempt of `geom_pattern =
X([+-]?\d+)Y([+-]?\d+).*?R(\d+).*?S(\d+)` at the head of the string:
`X`, a signed integer whose digit run must be immediately followed by
`Y`, a second signed integer, then the `R`/`S` scan. -/
def geomMatchAt (cs : List Char) : Option (Int × Int × Nat × List Char) :=
  match cs with
  | [] => none
  | c :: r =>
    if c = 'X' then
      match signedInt r with
      | none => none
      | some (x, r1) =>
        match r1 with
        | [] => none
        | c2 :: r2 =>
          if c2 = 'Y' then
            match signedInt r2 with
            | none => none
            | some (y, r3) =>
              match findRS r3 with
              | some (rot, sid) => some (x, y, rot, sid)
              | none => none
          else none
    else none

/-- `geom_pattern.search(geom)` (line 61): try the anchored match at
every position, first success wins. -/
def geom_search : List Char → Option (Int × Int × Nat × List Char)
  | [] => none
  | c :: r =>
    match geomMatchAt (c :: r) with
    | some v => some v
    | none => geom_search r

/-! ## Graph-format parser state and line processing -/

/-- `metadata[key] = value` on a Python dict: overwrite in place if the
key exists (keeping its position), otherwise append. -/
def metaInsert : List (String × String) → String → String → List (String × String)
  | [], k, v => [(k, v)]
  | (k', v') :: rest, k, v =>
    if k' == k then (k, v) :: rest else (k', v') :: metaInsert rest k v

/-- `components[comp]["pins"].append(pin)` on a `defaultdict`: append
the pin to the existing entry, or create the entry at the end. -/
def updatePins : List (String × List Pin) → String → Pin → List (String × List Pin)
  | [], k, p => [(k, [p])]
  | (k', ps) :: rest, k, p =>
    if k' == k then (k', ps ++ [p]) :: rest else (k', ps) :: updatePins rest k p

/-- `nets[net_id]["name"] = net_name; nets[net_id]["connections"].append(comp)`
on a `defaultdict`: overwrite the name and append the connection, or
create the entry at the end. -/
def updateNets : List (String × NetData) → String → String → String → List (String × NetData)
  | [], nid, nm, c => [(nid, ⟨nm, [c]⟩)]
  | (k, d) :: rest, nid, nm, c =>
    if k == nid then (k, ⟨nm, d.connections ++ [c]⟩) :: rest
    else (k, d) :: updateNets rest nid nm c

/-- Mutable state of the `parse_d356` loop. -/
structure GraphState where
  metadata : List (String × String)
  components : List (String × List Pin)
  nets : List (String × NetData)
  deriving Repr, DecidableEq

/-- Build the `pin_info` record for a matched net line (lines 61-81):
geometry fields from the first `geom_pattern` match, or all `None` when
the geometry regex does not match. -/
def mkPinFromLine (nl : NetLine) : Pin :=
  match geom_search nl.geom with
  | some (x, y, rot, sid) =>
    ⟨String.mk nl.netid, String.mk nl.netname, String.mk nl.comp, String.mk nl.geom,
      some x, some y, some rot, some (String.mk sid)⟩
  | none =>
    ⟨String.mk nl.netid, String.mk nl.netname, String.mk nl.comp, String.mk nl.geom,
      none, none, none, none⟩

/-- The body of the `for line in f` loop of `parse_d356` (lines 40-86):
strip the line; skip if empty; if it starts with `"P "` record metadata
(when the property regex matches) and nothing else; otherwise try the
net-line regex and, on a match, append the pin to its component and the
component id to its net; otherwise drop the line silently. -/
def processLine (st : GraphState) (raw : String) : GraphState :=
  let line := pyStrip raw.data
  if line = [] then st
  else if startsWithPSpace line then
    match prop_match line with
    | some kv =>
      { st with metadata := metaInsert st.metadata (String.mk kv.1) (String.mk (pyStrip kv.2)) }
    | none => st
  else
    match netline_match line with
    | some nl =>
      let pin := mkPinFromLine nl
      { st with
          components := updatePins st.components pin.component pin,
          nets := updateNets st.nets pin.net_id pin.net_name pin.component }
    | none => st

/-- `parse_d356` applied to the already-read sequence of lines (lines
without their terminating newline, which `line.strip()` removes
anyway). -/
def parse_d356_lines (lines : List String) : GraphNetlist :=
  let st := lines.foldl processLine ⟨[], [], []⟩
  ⟨st.metadata, st.components, st.nets⟩

/-- An I/O failure raised by `open`/read, carried unchanged. -/
def IoError := String
deriving instance DecidableEq, Repr for IoError

/-- `parse_d356(file_path)`: the `with open(...)` may fail, in which
case the I/O error propagates unchanged and no model is produced;
otherwise the whole line loop runs to completion. -/
def parse_d356 (input : Except IoError (List String)) : Except IoError GraphNetlist :=
  match input with
  | .error e => .error e
  | .ok lines => .ok (parse_d356_lines lines)

/-! ## Flat-format (`.ipc`) parser

The regex of `parse_ipc` (lines 101-106) is
`(?P<net>\S+)\s+(?P<comp>[A-Za-z0-9]+)\s+(?P<pin>-?\d+)\s+`
`PA\d+X\s*(?P<x>\d+)Y\s*(?P<y>\d+).*R(?P<rot>\d+)\s+S(?P<side>\d+)`,
applied with `re.search` to each raw line.  The greedy `.*R` makes the
rotation/side pair anchor at the **last** position where
`R\d+\s+S\d+` matches. -/

/-- One anchored attempt of the `R(?P<rot>\d+)\s+S(?P<side>\d+)` tail:
`R`, a non-empty maximal digit run, non-empty whitespace, `S`, a
non-empty maximal digit run. -/
def matchRS (cs : List Char) : Option (Nat × List Char) :=
  match cs with
  | 'R' :: r =>
    let d := takeDigits r
    if d = [] then none else
    let r2 := r.drop d.length
    let ws := r2.takeWhile isWS
    if ws = [] then none else
    match r2.drop ws.length with
    | 'S' :: r3 =>
      let sd := takeDigits r3
      if sd = [] then none else some (natOfDigits d, sd)
    | _ => none
  | _ => none

/-- The greedy `.*R(\d+)\s+S(\d+)`: the rightmost position at which
`matchRS` succeeds wins. -/
def lastRS : List Char → Option (Nat × List Char)
  | [] => none
  | c :: r =>
    match lastRS r with
    | some v => some v
    | none => matchRS (c :: r)

/-- One anchored attempt of the full `parse_ipc` pattern at the head of
the string.  Each greedy sub-match (maximal non-whitespace run, maximal
alphanumeric run, maximal digit run, maximal whitespace run) must be
followed by the fixed next element of the pattern, which makes the
backtracking regex deterministic. -/
def ipcMatchAt (cs : List Char) : Option FlatEntry :=
  let net := cs.takeWhile (fun c => !(isWS c))
  if net = [] then none else
  let r1 := cs.drop net.length
  let ws1 := r1.takeWhile isWS
  if ws1 = [] then none else
  let r2 := r1.drop ws1.length
  let comp := r2.takeWhile Char.isAlphanum
  if comp = [] then none else
  let r3 := r2.drop comp.length
  let ws2 := r3.takeWhile isWS
  if ws2 = [] then none else
  let r4 := r3.drop ws2.length
  let signed := match r4 with
    | '-' :: t => (true, t)
    | _ => (false, r4)
  let pd := takeDigits signed.2
  if pd = [] then none else
  let pinStr := (if signed.1 then "-" else "") ++ String.mk pd
  let r6 := signed.2.drop pd.length
  let ws3 := r6.takeWhile isWS
  if ws3 = [] then none else
  match r6.drop ws3.length with
  | 'P' :: 'A' :: r7 =>
    let ad := takeDigits r7
    if ad = [] then none else
    match r7.drop ad.length with
    | 'X' :: r8 =>
      let r9 := r8.drop (r8.takeWhile isWS).length
      let xd := takeDigits r9
      if xd = [] then none else
      match r9.drop xd.length with
      | 'Y' :: r10 =>
        let r11 := r10.drop (r10.takeWhile isWS).length
        let yd := takeDigits r11
        if yd = [] then none else
        match lastRS (r11.drop yd.length) with
        | some (rot, sd) =>
          some ⟨String.mk net, String.mk comp, pinStr,
                natOfDigits xd, natOfDigits yd, rot, String.mk sd⟩
        | none => none
      | _ => none
    | _ => none
  | _ => none

/-- `pattern.search(line)` of `parse_ipc` (line 110): try the anchored
match at every position, first success wins. -/
def ipc_search : List Char → Option FlatEntry
  | [] => none
  | c :: r =>
    match ipcMatchAt (c :: r) with
    | some v => some v
    | none => ipc_search r

/-- The `for line in f` loop of `parse_ipc` (lines 108-120): lines
whose search succeeds append one record, all others are dropped
silently. -/
def parse_ipc_lines (lines : List String) : List FlatEntry :=
  lines.foldl
    (fun acc l =>
      match ipc_search l.data with
      | some e => acc ++ [e]
      | none => acc) []

/-- `parse_ipc(file_path)`: the `with open(...)` may fail, in which
case the I/O error propagates unchanged; otherwise the loop runs to
completion. -/
def parse_ipc (input : Except IoError (List String)) : Except IoError (List FlatEntry) :=
  match input with
  | .error e => .error e
  | .ok lines => .ok (parse_ipc_lines lines)

/-! ## Top-level dispatch (`parse_netlist`, lines 15-19) -/

/-- `parse_netlist(file_path)`: dispatch on the file-path suffix with
Python's case-sensitive `str.endswith`; when neither suffix matches,
no branch fires and Python falls off the function, returning `None`
(modelled as `none`) without touching the file. -/
def parse_netlist (path : String) (input : Except IoError (List String)) :
    Option (Except IoError Netlist) :=
  if pyEndsWith path ".d356" then some ((parse_d356 input).map Netlist.graph)
  else if pyEndsWith path ".ipc" then some ((parse_ipc input).map Netlist.flat)
  else none

/-- The spec's closed format tag set (§4.1). -/
inductive FileFormat where
  | graph_format | flat_format | unknown
  deriving Repr, DecidableEq

/-- The format decision embodied in the branch structure of
`parse_netlist` (lines 15-19): `unknown` names the fall-through branch
in which Python returns `None`. -/
def detect_format (path : String) : FileFormat :=
  if pyEndsWith path ".d356" then .graph_format
  else if pyEndsWith path ".ipc" then .flat_format
  else .unknown

/-! ## Chunk flattener (`flatten_netlist`, lines 143-185) -/

/-- Python `str(...)` of an optional int field (`None` prints as
`None`). -/
def pyOptInt : Option Int → String
  | none => "None"
  | some n => toString n

/-- Python `str(...)` of an optional unsigned int field. -/
def pyOptNat : Option Nat → String
  | none => "None"
  | some n => toString n

/-- Python `str(...)` of an optional string field. -/
def pyOptStr : Option String → String
  | none => "None"
  | some s => s

/-- The metadata chunk (line 150). -/
def metaChunk (md : List (String × String)) : String :=
  "Metadata:\n" ++ String.intercalate "\n" (md.map (fun kv => kv.1 ++ ": " ++ kv.2))

/-- One pin line of a component chunk (line 158). -/
def pinLine (p : Pin) : String :=
  "Pin connected to net '" ++ p.net_name ++ "' (ID: " ++ p.net_id ++ ") at (" ++
    pyOptInt p.x ++ ", " ++ pyOptInt p.y ++ "), rotation " ++ pyOptNat p.rotation ++
    ", symbol " ++ pyOptStr p.symbol_id

/-- One component chunk (line 160). -/
def compChunk (name : String) (pins : List Pin) : String :=
  "Component: " ++ name ++ "\n" ++ String.intercalate "\n" (pins.map pinLine)

/-- One net chunk (line 166). -/
def netChunk (nid : String) (nd : NetData) : String :=
  "Net: " ++ nid ++ " (" ++ nd.name ++ ")\nConnected components: " ++
    String.intercalate ", " nd.connections

/-- One flat-entry line of a net group chunk (line 180). -/
def flatLine (e : FlatEntry) : String :=
  "Component " ++ e.component ++ ", Pin " ++ e.pin ++ ", Pos (" ++ toString e.x ++
    "," ++ toString e.y ++ "), Rot " ++ toString e.rotation ++ ", Side " ++ e.side

/-- One net group chunk of the flat path (line 182). -/
def flatChunk (net : String) (es : List FlatEntry) : String :=
  "Net: " ++ net ++ "\n" ++ String.intercalate "\n" (es.map flatLine)

/-- `net_groups[entry["net"]].append(entry)` on a `defaultdict(list)`
(line 174): append to the existing group, or create it at the end. -/
def updateGroup : List (String × List FlatEntry) → FlatEntry → List (String × List FlatEntry)
  | [], e => [(e.net, [e])]
  | (k, g) :: rest, e =>
    if k == e.net then (k, g ++ [e]) :: rest else (k, g) :: updateGroup rest e

/-- The grouping loop of the flat path (lines 172-174). -/
def groupByNet (es : List FlatEntry) : List (String × List FlatEntry) :=
  es.foldl updateGroup []

/-- `flatten_netlist(parsed)` (lines 143-185): on the d356 dict (which
always has the `components` and `nets` keys) emit the metadata chunk
when the metadata dict is non-empty (truthiness of
`parsed.get("metadata")`), then one chunk per component, then one
chunk per net, by appending to `snippets`; on the ipc list, group by
net and emit one chunk per group. -/
def flatten_netlist : Netlist → List String
  | .graph g =>
    let snippets : List String := []
    let snippets := if g.metadata = [] then snippets else snippets ++ [metaChunk g.metadata]
    let snippets := g.components.foldl (fun acc c => acc ++ [compChunk c.1 c.2]) snippets
    g.nets.foldl (fun acc n => acc ++ [netChunk n.1 n.2]) snippets
  | .flat es =>
    (groupByNet es).foldl (fun acc p => acc ++ [flatChunk p.1 p.2]) []

/-! ## Document merger (spec §4.5) -/

/-- Modelled from the spec: the repository delegates paragraph-container
assembly to the external `python-docx` library (`Document`,
`add_heading`, `add_paragraph` in `flask-backend.py` and
`netlist_parser.py`), so the DocumentMerger of spec §4.5 has no
self-contained implementation under `src/`.  Following the spec's
words, it receives an ordered list of source documents (each an
ordered sequence of non-empty paragraph strings) plus a synthesized
title, starts from the title paragraph, and appends each document's
paragraphs in input order. -/
def merge_documents (title : String) (docs : List (List String)) : List String :=
  docs.foldl (fun acc d => acc ++ d) [title]

end Aeronix

namespace Aeronix

/-! ## Concrete sample inputs used by the claims -/

/-- Sample graph-format input of spec §8 (claim C1). -/
def c1Input : List String :=
  ["P JOB testboard", "1A  U1   X0100Y0200R090S01", "1A  U2   X0300Y0200R180S02"]

/-- Flat-format input with two pins on net `5V` and one pin on net
`GND` (claim C5). -/
def c5Input : List String :=
  ["5V U1 -1 PA01X0100Y0200R090 S1",
   "5V U2 2 PA01X0300Y0400R180 S2",
   "GND U3 -3 PA01X0500Y0600R270 S0"]

/-- First-seen order of the distinct net ids of a flat pin-record
sequence (the insertion order of the keys of `net_groups`). -/
def firstSeenNets (es : List FlatEntry) : List String :=
  es.foldl (fun ks e => if e.net ∈ ks then ks else ks ++ [e.net]) []

/-- The spec-side characterization of the grouping (spec §4.4, flat
path): one group per distinct net id in first-seen order, whose
members are the records of that net in file order. -/
def groupSpec (es : List FlatEntry) : List (String × List FlatEntry) :=
  (firstSeenNets es).map (fun n => (n, es.filter (fun e => e.net == n)))

/-- The component ids listed across all nets' connection lists, with
multiplicity. -/
def netConns (nets : List (String × NetData)) : List String :=
  (nets.map (fun n => n.2.connections)).flatten

/-- The owning-component id of every pin across all components, with
multiplicity. -/
def pinOwners (comps : List (String × List Pin)) : List String :=
  (comps.map (fun c => c.2.map (fun p => p.component))).flatten

/-! ## General helper lemmas -/

/-- A loop that appends one element per iteration produces the initial
accumulator followed by the mapped list. -/
theorem foldl_push {α β : Type} (f : α → β) :
    ∀ (l : List α) (init : List β),
      l.foldl (fun acc x => acc ++ [f x]) init = init ++ l.map f := by
  intro l
  induction l with
  | nil => intro init; simp
  | cons a t ih => intro init; simp [ih, List.append_assoc]

/-- Folding list concatenation over a list of lists appends its join. -/
theorem foldl_append_join {α : Type} :
    ∀ (docs : List (List α)) (init : List α),
      docs.foldl (fun acc d => acc ++ d) init = init ++ docs.flatten := by
  intro docs
  induction docs with
  | nil => intro init; simp
  | cons d t ih => intro init; simp [ih, List.append_assoc]

/-! ## Claim C1 -/

/-- Claim C1: parsing the three-line graph-format input of spec §8
yields exactly the metadata `{JOB: "testboard"}`, component `U1` with
one pin `(net "1"/"A", 100, 200, 90, "01")`, component `U2` with one
pin `(net "1"/"A", 300, 200, 180, "02")`, and the single net `"1"`
named `"A"` with connections `["U1", "U2"]`. -/
theorem claim_C1_end_to_end_example :
    parse_d356_lines c1Input =
      ⟨[("JOB", "testboard")],
       [("U1", [⟨"1", "A", "U1", "X0100Y0200R090S01",
                  some 100, some 200, some 90, some "01"⟩]),
        ("U2", [⟨"1", "A", "U2", "X0300Y0200R180S02",
                  some 300, some 200, some 180, some "02"⟩])],
       [("1", ⟨"A", ["U1", "U2"]⟩)]⟩ := by
  rfl

/-! ## Claim C2 (counterexample part) -/

/-- Claim C2, counterexample: the geometry regex does **not** tolerate
arbitrary unrecognized text between every pair of consecutive anchors.
A single space between the `X` integer and the `Y` anchor
(`"X0100 Y0200R090S01"`) makes the whole geometry match fail, so the
pin is recorded with all four geometry fields absent instead of the
values 100/200/90/"01" the claim demands. -/
theorem claim_C2_counterexample :
    parse_d356_lines ["1A  U1   X0100 Y0200R090S01"] =
      ⟨[],
       [("U1", [⟨"1", "A", "U1", "X0100 Y0200R090S01", none, none, none, none⟩])],
       [("1", ⟨"A", ["U1"]⟩)]⟩ := by
  rfl

/-! ## Claim C2 (amended part) -/

theorem takeDigits_append (xs ys : List Char)
    (hx : ∀ c ∈ xs, c.isDigit = true)
    (hy : ∀ c, ys.head? = some c → c.isDigit = false) :
    takeDigits (xs ++ ys) = xs := by
  induction xs with
  | nil =>
    cases ys with
    | nil => rfl
    | cons c t =>
      have hc := hy c rfl
      simp [takeDigits, List.takeWhile_cons, hc]
  | cons c xs' ih =>
    have hc := hx c (List.mem_cons_self _ _)
    simp only [List.cons_append, takeDigits, List.takeWhile_cons, hc, if_true]
    exact congrArg (c :: ·) (ih (fun d hd => hx d (List.mem_cons_of_mem _ hd)))

theorem isDigit_ne_plus {c : Char} (h : c.isDigit = true) : c ≠ '+' := by
  intro heq
  rw [heq] at h
  exact absurd h (by decide)

theorem isDigit_ne_minus {c : Char} (h : c.isDigit = true) : c ≠ '-' := by
  intro heq
  rw [heq] at h
  exact absurd h (by decide)

theorem signedInt_digits (xs ys : List Char) (hne : xs ≠ [])
    (hx : ∀ c ∈ xs, c.isDigit = true)
    (hy : ∀ c, ys.head? = some c → c.isDigit = false) :
    signedInt (xs ++ ys) = some ((natOfDigits xs : Int), ys) := by
  obtain ⟨c, xs', rfl⟩ : ∃ c xs', xs = c :: xs' := by
    cases xs with
    | nil => exact absurd rfl hne
    | cons a t => exact ⟨a, t, rfl⟩
  have hc := hx c (List.mem_cons_self _ _)
  have h1 : takeDigits ((c :: xs') ++ ys) = c :: xs' := takeDigits_append _ _ hx hy
  rw [List.cons_append] at h1 ⊢
  show signedInt (c :: (xs' ++ ys)) = _
  simp only [signedInt]
  rw [if_neg (isDigit_ne_plus hc), if_neg (isDigit_ne_minus hc)]
  simp only [h1, List.length_cons]
  rw [if_neg (List.cons_ne_nil c xs')]
  rw [List.drop_succ_cons, List.drop_left]

theorem findS_cons_ne (c : Char) (t : List Char) (h : c ≠ 'S') :
    findS (c :: t) = findS t := by
  simp [findS, h]

theorem findS_append_no_S (sep z : List Char) (h : ∀ c ∈ sep, c ≠ 'S') :
    findS (sep ++ z) = findS z := by
  induction sep with
  | nil => rfl
  | cons c t ih =>
    rw [List.cons_append, findS_cons_ne c _ (h c (List.mem_cons_self _ _))]
    exact ih (fun d hd => h d (List.mem_cons_of_mem _ hd))

theorem findS_at_S (sd : List Char) (hne : sd ≠ [])
    (hd : ∀ c ∈ sd, c.isDigit = true) :
    findS ('S' :: sd) = some sd := by
  have h1 : takeDigits sd = sd := by
    have := takeDigits_append sd [] hd (by intro c hc; simp at hc)
    simpa using this
  simp [findS, h1, hne]

theorem findRS_cons_ne (c : Char) (t : List Char) (h : c ≠ 'R') :
    findRS (c :: t) = findRS t := by
  simp [findRS, h]

theorem findRS_append_no_R (sep z : List Char) (h : ∀ c ∈ sep, c ≠ 'R') :
    findRS (sep ++ z) = findRS z := by
  induction sep with
  | nil => rfl
  | cons c t ih =>
    rw [List.cons_append, findRS_cons_ne c _ (h c (List.mem_cons_self _ _))]
    exact ih (fun d hd => h d (List.mem_cons_of_mem _ hd))

/-- Head character of `sep ++ marker :: rest` is not a digit whenever
`sep`'s head (if any) is not a digit and the marker is not a digit. -/
theorem head_append_not_digit (sep : List Char) (m : Char) (rest : List Char)
    (hsep : ∀ c, sep.head? = some c → c.isDigit = false)
    (hm : m.isDigit = false) :
    ∀ c, (sep ++ m :: rest).head? = some c → c.isDigit = false := by
  cases sep with
  | nil =>
    intro c hc
    simp only [List.nil_append, List.head?_cons, Option.some.injEq] at hc
    rw [← hc]
    exact hm
  | cons a t =>
    intro c hc
    simp only [List.cons_append, List.head?_cons, Option.some.injEq] at hc
    rw [← hc]
    exact hsep a rfl

theorem findRS_full (rd sd sep2 : List Char)
    (hr0 : rd ≠ []) (hr : ∀ c ∈ rd, c.isDigit = true)
    (hs0 : sd ≠ []) (hs : ∀ c ∈ sd, c.isDigit = true)
    (hsep2S : ∀ c ∈ sep2, c ≠ 'S')
    (hsep2h : ∀ c, sep2.head? = some c → c.isDigit = false) :
    findRS ('R' :: (rd ++ (sep2 ++ 'S' :: sd))) = some (natOfDigits rd, sd) := by
  have hhead : ∀ c, (sep2 ++ 'S' :: sd).head? = some c → c.isDigit = false :=
    head_append_not_digit sep2 'S' sd hsep2h (by decide)
  have h1 : takeDigits (rd ++ (sep2 ++ 'S' :: sd)) = rd := takeDigits_append _ _ hr hhead
  have h2 : (rd ++ (sep2 ++ 'S' :: sd)).drop rd.length = sep2 ++ 'S' :: sd :=
    List.drop_left rd _
  simp only [findRS, if_pos rfl, h1, h2, hr0, if_neg hr0]
  simp [findS_append_no_S sep2 _ hsep2S, findS_at_S sd hs0 hs]

/-- Claim C2, amended: for every net line accepted by the graph parser,
the geometry fields are extracted by a first-match anchor scan with no
fixed column positions — arbitrary anchor-free text (no `R`, resp. no
`S`, and not starting with a digit) is permitted between the `Y` group
and `R` and between the `R` group and `S` — but the `Y` anchor must
immediately follow the `X` integer; and whenever the geometry substring
does not match the anchor pattern at all, x, y, rotation and symbol are
all recorded as absent while the line's pin is still recorded (and the
net connection still appended) rather than the line being aborted. -/
theorem claim_C2_amended :
    (∀ xd yd rd sd sep1 sep2 : List Char,
      xd ≠ [] → (∀ c ∈ xd, c.isDigit = true) →
      yd ≠ [] → (∀ c ∈ yd, c.isDigit = true) →
      rd ≠ [] → (∀ c ∈ rd, c.isDigit = true) →
      sd ≠ [] → (∀ c ∈ sd, c.isDigit = true) →
      (∀ c ∈ sep1, c ≠ 'R') → (∀ c, sep1.head? = some c → c.isDigit = false) →
      (∀ c ∈ sep2, c ≠ 'S') → (∀ c, sep2.head? = some c → c.isDigit = false) →
      geom_search
          ('X' :: (xd ++ 'Y' :: (yd ++ (sep1 ++ 'R' :: (rd ++ (sep2 ++ 'S' :: sd)))))) =
        some ((natOfDigits xd : Int), (natOfDigits yd : Int), natOfDigits rd, sd)) ∧
    (∀ (st : GraphState) (raw : String) (nl : NetLine),
      pyStrip raw.data ≠ [] →
      startsWithPSpace (pyStrip raw.data) = false →
      netline_match (pyStrip raw.data) = some nl →
      geom_search nl.geom = none →
      processLine st raw =
        { st with
            components := updatePins st.components (String.mk nl.comp)
              ⟨String.mk nl.netid, String.mk nl.netname, String.mk nl.comp,
                String.mk nl.geom, none, none, none, none⟩,
            nets := updateNets st.nets (String.mk nl.netid) (String.mk nl.netname)
              (String.mk nl.comp) }) := by
  constructor
  · intro xd yd rd sd sep1 sep2 hx0 hx hy0 hy hr0 hr hs0 hs hsep1R hsep1h hsep2S hsep2h
    have hYhead : ∀ c, ('Y' :: (yd ++ (sep1 ++ 'R' :: (rd ++ (sep2 ++ 'S' :: sd))))).head? =
        some c → c.isDigit = false := by
      intro c hc
      simp only [List.head?_cons, Option.some.injEq] at hc
      rw [← hc]
      decide
    have hRhead : ∀ c, (sep1 ++ 'R' :: (rd ++ (sep2 ++ 'S' :: sd))).head? = some c →
        c.isDigit = false :=
      head_append_not_digit sep1 'R' _ hsep1h (by decide)
    have hm : geomMatchAt
        ('X' :: (xd ++ 'Y' :: (yd ++ (sep1 ++ 'R' :: (rd ++ (sep2 ++ 'S' :: sd)))))) =
        some ((natOfDigits xd : Int), (natOfDigits yd : Int), natOfDigits rd, sd) := by
      simp [geomMatchAt, signedInt_digits xd _ hx0 hx hYhead,
        signedInt_digits yd _ hy0 hy hRhead, findRS_append_no_R sep1 _ hsep1R,
        findRS_full rd sd sep2 hr0 hr hs0 hs hsep2S hsep2h]
    simp only [geom_search, hm]
  · intro st raw nl h1 h2 h3 h4
    unfold processLine
    simp only [h1, if_false, h2, Bool.false_eq_true, h3, mkPinFromLine, h4]

/-- Witness for C2's amended statement: a geometry string with padding
text between the `Y` group and `R` and between the `R` group and `S`
is fully extracted, and a net line whose geometry has no anchors at
all still records its pin (with absent fields) and its net
connection. -/
theorem claim_C2_amended_witness :
    geom_search ("X0100Y0200 pad R090 q S01".data) =
      some ((100 : Int), (200 : Int), 90, "01".data) ∧
    processLine ⟨[], [], []⟩ "1A  U1   XYZW" =
      ⟨[], [("U1", [⟨"1", "A", "U1", "XYZW", none, none, none, none⟩])],
       [("1", ⟨"A", ["U1"]⟩)]⟩ := by
  constructor
  · exact claim_C2_amended.1 "0100".data "0200".data "090".data "01".data
      " pad ".data " q ".data
      (by decide) (by decide) (by decide) (by decide)
      (by decide) (by decide) (by decide) (by decide)
      (by decide)
      (by intro c hc; injection hc with h; subst h; decide)
      (by decide)
      (by intro c hc; injection hc with h; subst h; decide)
  · exact claim_C2_amended.2 ⟨[], [], []⟩ "1A  U1   XYZW"
      ⟨"1".data, "A".data, "U1".data, "XYZW".data⟩
      (by decide) (by decide) (by decide) (by decide)

/-! ## Claim C3 -/

/-- Claim C3, counterexample: extension comparison is **not**
case-insensitive.  A path ending in upper-case `.D356` falls through
both branches of `parse_netlist` (Python returns `None`) instead of
being classified as the graph format. -/
theorem claim_C3_counterexample :
    detect_format "board.D356" = FileFormat.unknown ∧
      parse_netlist "board.D356" (Except.ok []) = none := by
  exact ⟨rfl, rfl⟩

/-- Claim C3, amended: format detection is total, decides solely on the
path string, returns exactly one of the three tags, and classifies by
**case-sensitive** suffix comparison: a path ending in the exact
suffix `".d356"` is the graph format, otherwise a path ending in the
exact suffix `".ipc"` is the flat format, and every other path yields
`unknown` (the fall-through in which `parse_netlist` returns `None`). -/
theorem claim_C3_amended (path : String) :
    (detect_format path = FileFormat.graph_format ↔ pyEndsWith path ".d356" = true) ∧
    (detect_format path = FileFormat.flat_format ↔
      (pyEndsWith path ".d356" = false ∧ pyEndsWith path ".ipc" = true)) ∧
    (detect_format path = FileFormat.unknown ↔
      (pyEndsWith path ".d356" = false ∧ pyEndsWith path ".ipc" = false)) := by
  unfold detect_format
  cases h1 : pyEndsWith path ".d356" <;> cases h2 : pyEndsWith path ".ipc" <;> simp

/-! ## Claim C6 -/

/-- Claim C6: flattening is deterministic — the chunk sequence is a
function of the model value alone, so flattening the same model twice
(or two equal model values) yields identical ordered chunk sequences.
In the embedding the component, net, and group maps are
insertion-ordered association lists, mirroring Python's
insertion-ordered `dict`, so no unordered-iteration nondeterminism
exists. -/
theorem claim_C6_flatten_deterministic (m₁ m₂ : Netlist) (h : m₁ = m₂) :
    flatten_netlist m₁ = flatten_netlist m₂ := by
  rw [h]

/-- Witness for C6 at a concrete model. -/
theorem claim_C6_flatten_deterministic_witness :
    flatten_netlist (Netlist.graph (parse_d356_lines c1Input)) =
      flatten_netlist (Netlist.graph (parse_d356_lines c1Input)) :=
  claim_C6_flatten_deterministic _ _ rfl

/-! ## Claim C7 -/

/-- Claim C7: for both parsers, a stream-open failure is fatal and the
I/O error propagates unchanged with no partial model; once the stream
is open, parsing always runs to completion and returns a model (every
non-matching line is silently dropped inside `parse_d356_lines` /
`parse_ipc_lines`, which are total functions — no regex mismatch
raises). -/
theorem claim_C7_error_propagation :
    (∀ e : IoError, parse_d356 (Except.error e) = Except.error e) ∧
    (∀ e : IoError, parse_ipc (Except.error e) = Except.error e) ∧
    (∀ lines : List String, ∃ g, parse_d356 (Except.ok lines) = Except.ok g) ∧
    (∀ lines : List String, ∃ ns, parse_ipc (Except.ok lines) = Except.ok ns) :=
  ⟨fun _ => rfl, fun _ => rfl,
   fun lines => ⟨parse_d356_lines lines, rfl⟩,
   fun lines => ⟨parse_ipc_lines lines, rfl⟩⟩

/-! ## Claim C8 -/

/-- Claim C8: the document merger returns exactly the title paragraph
followed by the concatenation of each source document's paragraphs in
input order (no reordering, deduplication, or cross-document merging),
and a document with zero paragraphs contributes nothing and causes no
error. -/
theorem claim_C8_merge_documents :
    (∀ (title : String) (docs : List (List String)),
      merge_documents title docs = title :: docs.flatten) ∧
    (∀ (title : String) (pre post : List (List String)),
      merge_documents title (pre ++ [[]] ++ post) = merge_documents title (pre ++ post)) := by
  constructor
  · intro title docs
    simp [merge_documents, foldl_append_join]
  · intro title pre post
    simp [merge_documents, foldl_append_join]

/-! ## Claim C4 -/

/-- Claim C4: flattening a graph-shaped model emits, in this fixed
order, the single metadata chunk (omitted exactly when the metadata
map is empty), then one chunk per component in component-map order,
then one chunk per net in net-map order.  `metaChunk` lists every
key/value pair, `compChunk` lists every pin's net name, net id, x, y,
rotation and symbol id, and `netChunk` lists the net id, its name and
its full ordered, non-deduplicated connection list. -/
theorem claim_C4_graph_flatten_order (g : GraphNetlist) :
    flatten_netlist (Netlist.graph g) =
      (if g.metadata = [] then [] else [metaChunk g.metadata]) ++
        g.components.map (fun c => compChunk c.1 c.2) ++
        g.nets.map (fun n => netChunk n.1 n.2) := by
  show (g.nets.foldl (fun acc n => acc ++ [netChunk n.1 n.2])
      (g.components.foldl (fun acc c => acc ++ [compChunk c.1 c.2])
        (if g.metadata = [] then [] else [] ++ [metaChunk g.metadata]))) = _
  rw [foldl_push (fun n : String × NetData => netChunk n.1 n.2),
      foldl_push (fun c : String × List Pin => compChunk c.1 c.2)]
  by_cases h : g.metadata = [] <;> simp [h, List.append_assoc]

/-! ## Claim C5 -/

theorem firstSeenNets_append (es : List FlatEntry) (e : FlatEntry) :
    firstSeenNets (es ++ [e]) =
      if e.net ∈ firstSeenNets es then firstSeenNets es
      else firstSeenNets es ++ [e.net] := by
  simp [firstSeenNets, List.foldl_append]

theorem mem_firstSeenNets (x : String) :
    ∀ es : List FlatEntry, x ∈ firstSeenNets es ↔ x ∈ es.map (fun e => e.net) := by
  intro es
  induction es using List.reverseRecOn with
  | nil => simp [firstSeenNets]
  | append_singleton es e ih =>
    rw [firstSeenNets_append]
    by_cases h : e.net ∈ firstSeenNets es
    · simp only [if_pos h, List.map_append, List.map_cons, List.map_nil, List.mem_append,
        List.mem_singleton, ih]
      constructor
      · exact fun hx => Or.inl hx
      · rintro (hx | rfl)
        · exact hx
        · exact (ih.mp h)
    · simp [if_neg h, ih]

theorem nodup_firstSeenNets :
    ∀ es : List FlatEntry, (firstSeenNets es).Nodup := by
  intro es
  induction es using List.reverseRecOn with
  | nil => simp [firstSeenNets]
  | append_singleton es e ih =>
    rw [firstSeenNets_append]
    by_cases h : e.net ∈ firstSeenNets es
    · simpa [if_pos h] using ih
    · rw [if_neg h]
      simpa [List.concat_eq_append] using List.Nodup.concat h ih

theorem updateGroup_no_key (e : FlatEntry) :
    ∀ l : List (String × List FlatEntry), (∀ p ∈ l, p.1 ≠ e.net) →
      updateGroup l e = l ++ [(e.net, [e])] := by
  intro l
  induction l with
  | nil => intro _; rfl
  | cons hd tl ih =>
    intro h
    obtain ⟨k, g⟩ := hd
    have hk : k ≠ e.net := h (k, g) (List.mem_cons_self _ _)
    simp only [updateGroup, beq_iff_eq, if_neg hk, List.cons_append, List.cons.injEq,
      true_and]
    exact ih (fun p hp => h p (List.mem_cons_of_mem _ hp))

theorem updateGroup_mapped_keys (e : FlatEntry) (f : String → List FlatEntry) :
    ∀ ks : List String, ks.Nodup → e.net ∈ ks →
      updateGroup (ks.map (fun n => (n, f n))) e =
        ks.map (fun n => (n, f n ++ if e.net == n then [e] else [])) := by
  intro ks
  induction ks with
  | nil => intro _ h; exact absurd h (List.not_mem_nil _)
  | cons k ks' ih =>
    intro hnd hmem
    by_cases hk : k = e.net
    · have hnotin : e.net ∉ ks' := hk ▸ (List.nodup_cons.mp hnd).1
      have hkb : (k == e.net) = true := beq_iff_eq.mpr hk
      have hnb : (e.net == k) = true := beq_iff_eq.mpr hk.symm
      simp only [List.map_cons, updateGroup, hkb, if_true, hnb, List.cons.injEq]
      refine ⟨trivial, ?_⟩
      apply List.map_congr_left
      intro n hn
      have hne : (e.net == n) = false :=
        beq_eq_false_iff_ne.mpr (fun hEq => hnotin (hEq ▸ hn))
      simp [hne]
    · have hmem' : e.net ∈ ks' := by
        rcases List.mem_cons.mp hmem with h | h
        · exact absurd h.symm hk
        · exact h
      have hkb : (k == e.net) = false := beq_eq_false_iff_ne.mpr hk
      have hnb : (e.net == k) = false := beq_eq_false_iff_ne.mpr (fun h => hk h.symm)
      simp only [List.map_cons, updateGroup, hkb, Bool.false_eq_true, if_false,
        hnb, List.cons.injEq]
      refine ⟨by simp, ?_⟩
      exact ih (List.nodup_cons.mp hnd).2 hmem'

/-- The grouping loop of `flatten_netlist`'s flat path computes exactly
the spec-side grouping: one entry per distinct net id, in first-seen
order, holding that net's records in file order. -/
theorem groupByNet_eq_groupSpec : ∀ es : List FlatEntry, groupByNet es = groupSpec es := by
  intro es
  induction es using List.reverseRecOn with
  | nil => rfl
  | append_singleton es e ih =>
    have step : groupByNet (es ++ [e]) = updateGroup (groupByNet es) e := by
      simp [groupByNet, List.foldl_append]
    rw [step, ih]
    unfold groupSpec
    rw [firstSeenNets_append]
    by_cases h : e.net ∈ firstSeenNets es
    · rw [if_pos h]
      rw [updateGroup_mapped_keys e _ _ (nodup_firstSeenNets es) h]
      apply List.map_congr_left
      intro n hn
      simp only [List.filter_append, Prod.mk.injEq, true_and]
      congr 1
      by_cases hne : e.net = n
      · simp [List.filter, hne]
      · have h1 : (e.net == n) = false := by simp [beq_eq_false_iff_ne]; exact hne
        simp [List.filter, h1]
    · rw [if_neg h]
      have hnokey : ∀ p ∈ (firstSeenNets es).map
          (fun n => (n, es.filter (fun x => x.net == n))), p.1 ≠ e.net := by
        intro p hp
        obtain ⟨n, hn, rfl⟩ := List.mem_map.mp hp
        exact fun hEq => h (hEq ▸ hn)
      rw [updateGroup_no_key e _ hnokey]
      rw [List.map_append]
      congr 1
      · apply List.map_congr_left
        intro n hn
        have hne : e.net ≠ n := fun hEq => h (hEq ▸ hn)
        have h1 : (e.net == n) = false := by simp [beq_eq_false_iff_ne]; exact hne
        simp [List.filter_append, List.filter, h1]
      · have hfil : es.filter (fun x => x.net == e.net) = [] := by
          rw [List.filter_eq_nil_iff]
          intro a ha
          intro hb
          have : a.net = e.net := by simpa using hb
          exact h ((mem_firstSeenNets e.net es).mpr
            (this ▸ List.mem_map.mpr ⟨a, ha, rfl⟩))
        simp [List.filter_append, List.filter, hfil]

/-- Claim C5: flattening a flat-shaped model emits exactly one chunk
per distinct net id, nets in first-seen order, each chunk listing that
net's pin records in first-seen (file) order; and on the concrete
flat-format input with two pins on `5V` and one on `GND`, exactly two
chunks are produced, the `5V` chunk listing both of its pins in file
order. -/
theorem claim_C5_flat_grouping :
    (∀ es : List FlatEntry,
      flatten_netlist (Netlist.flat es) =
        (firstSeenNets es).map
          (fun n => flatChunk n (es.filter (fun e => e.net == n)))) ∧
    parse_ipc_lines c5Input =
      [⟨"5V", "U1", "-1", 100, 200, 90, "1"⟩,
       ⟨"5V", "U2", "2", 300, 400, 180, "2"⟩,
       ⟨"GND", "U3", "-3", 500, 600, 270, "0"⟩] ∧
    flatten_netlist (Netlist.flat (parse_ipc_lines c5Input)) =
      [flatChunk "5V" [⟨"5V", "U1", "-1", 100, 200, 90, "1"⟩,
                       ⟨"5V", "U2", "2", 300, 400, 180, "2"⟩],
       flatChunk "GND" [⟨"GND", "U3", "-3", 500, 600, 270, "0"⟩]] := by
  refine ⟨?_, by rfl, by rfl⟩
  intro es
  show ((groupByNet es).foldl (fun acc p => acc ++ [flatChunk p.1 p.2]) []) = _
  rw [foldl_push (fun p : String × List FlatEntry => flatChunk p.1 p.2)]
  rw [groupByNet_eq_groupSpec]
  simp [groupSpec, List.map_map, Function.comp]

/-! ## Claim C9 -/

/-- Claim C9: for every file path whose (case-sensitive) suffix is
neither `".d356"` nor `".ipc"`, the dispatcher `parse_netlist` returns
no model at all (Python `None`): it neither raises nor produces an
`unknown` tag or a fallback at this interface. -/
theorem claim_C9_dispatch_returns_none (path : String)
    (input : Except IoError (List String))
    (h1 : pyEndsWith path ".d356" = false) (h2 : pyEndsWith path ".ipc" = false) :
    parse_netlist path input = none := by
  unfold parse_netlist
  simp [h1, h2]

/-- Witness for C9 at a concrete path with a third extension. -/
theorem claim_C9_dispatch_returns_none_witness :
    pyEndsWith "deck.txt" ".d356" = false ∧ pyEndsWith "deck.txt" ".ipc" = false ∧
      parse_netlist "deck.txt" (Except.ok ["hello"]) = none :=
  ⟨rfl, rfl, claim_C9_dispatch_returns_none "deck.txt" (Except.ok ["hello"]) rfl rfl⟩

/-! ## Claim C10 -/

theorem pinOwners_cons (k : String) (ps : List Pin) (rest : List (String × List Pin)) :
    pinOwners ((k, ps) :: rest) = ps.map (fun q => q.component) ++ pinOwners rest := by
  simp [pinOwners]

theorem pinOwners_updatePins (k : String) (p : Pin) :
    ∀ m : List (String × List Pin),
      List.Perm (pinOwners (updatePins m k p)) (p.component :: pinOwners m) := by
  intro m
  induction m with
  | nil => simp [updatePins, pinOwners]
  | cons hd tl ih =>
    obtain ⟨k', ps⟩ := hd
    by_cases h : k' = k
    · have hb : (k' == k) = true := beq_iff_eq.mpr h
      have step : updatePins ((k', ps) :: tl) k p = (k', ps ++ [p]) :: tl := by
        simp [updatePins, hb]
      rw [step, pinOwners_cons, pinOwners_cons]
      rw [List.map_append, List.map_singleton, List.append_assoc, List.singleton_append]
      exact List.perm_middle
    · have hb : (k' == k) = false := beq_eq_false_iff_ne.mpr h
      have step : updatePins ((k', ps) :: tl) k p = (k', ps) :: updatePins tl k p := by
        simp [updatePins, hb]
      rw [step, pinOwners_cons, pinOwners_cons]
      exact (List.Perm.append_left _ ih).trans List.perm_middle

theorem netConns_cons (k : String) (d : NetData) (rest : List (String × NetData)) :
    netConns ((k, d) :: rest) = d.connections ++ netConns rest := by
  simp [netConns]

theorem netConns_updateNets (nid nm c : String) :
    ∀ m : List (String × NetData),
      List.Perm (netConns (updateNets m nid nm c)) (c :: netConns m) := by
  intro m
  induction m with
  | nil => simp [updateNets, netConns]
  | cons hd tl ih =>
    obtain ⟨k, d⟩ := hd
    by_cases h : k = nid
    · have hb : (k == nid) = true := beq_iff_eq.mpr h
      have step : updateNets ((k, d) :: tl) nid nm c =
          (k, ⟨nm, d.connections ++ [c]⟩) :: tl := by
        simp [updateNets, hb]
      rw [step, netConns_cons, netConns_cons]
      rw [List.append_assoc, List.singleton_append]
      exact List.perm_middle
    · have hb : (k == nid) = false := beq_eq_false_iff_ne.mpr h
      have step : updateNets ((k, d) :: tl) nid nm c = (k, d) :: updateNets tl nid nm c := by
        simp [updateNets, hb]
      rw [step, netConns_cons, netConns_cons]
      exact (List.Perm.append_left _ ih).trans List.perm_middle

/-- Processing one line preserves the connection/owner balance: each
matched net line appends exactly one pin to exactly one component and
exactly one connection entry to exactly one net; every other line kind
touches neither map. -/
theorem processLine_preserves_balance (st : GraphState) (raw : String)
    (h : List.Perm (netConns st.nets) (pinOwners st.components)) :
    List.Perm (netConns (processLine st raw).nets)
      (pinOwners (processLine st raw).components) := by
  unfold processLine
  by_cases h1 : pyStrip raw.data = []
  · simpa [h1] using h
  · simp only [h1, if_false]
    by_cases h2 : startsWithPSpace (pyStrip raw.data) = true
    · simp only [h2, if_true]
      cases prop_match (pyStrip raw.data) with
      | none => exact h
      | some kv => exact h
    · simp only [Bool.not_eq_true] at h2
      simp only [h2, Bool.false_eq_true, if_false]
      cases hn : netline_match (pyStrip raw.data) with
      | none => exact h
      | some nl =>
        simp only []
        refine (netConns_updateNets _ _ _ _).trans ?_
        refine List.Perm.trans ?_ (pinOwners_updatePins _ _ _).symm
        have hcomp : (mkPinFromLine nl).component = String.mk nl.comp := by
          unfold mkPinFromLine
          cases geom_search nl.geom with
          | none => rfl
          | some v => obtain ⟨x, y, rot, sid⟩ := v; rfl
        rw [hcomp]
        exact h.cons _

theorem foldl_preserves_balance :
    ∀ (lines : List String) (st : GraphState),
      List.Perm (netConns st.nets) (pinOwners st.components) →
      List.Perm (netConns (lines.foldl processLine st).nets)
        (pinOwners (lines.foldl processLine st).components) := by
  intro lines
  induction lines with
  | nil => intro st h; exact h
  | cons l t ih =>
    intro st h
    exact ih (processLine st l) (processLine_preserves_balance st l h)

/-- Claim C10: in every model produced by the graph parser, the
multiset of component ids appearing across all nets' connection lists
equals the multiset of owning-component ids of all pins across all
components. -/
theorem claim_C10_connection_owner_balance (lines : List String) :
    (netConns (parse_d356_lines lines).nets : Multiset String) =
      (pinOwners (parse_d356_lines lines).components : Multiset String) := by
  apply Multiset.coe_eq_coe.mpr
  exact foldl_preserves_balance lines ⟨[], [], []⟩ (by simp [netConns, pinOwners])

end Aeronix
